import Mathlib

/-!
# Verification of the PTRAIL spatial-features / statistics core

Shallow embedding of `features/spatial_features.py` and
`ptrail/preprocessing/statistics.py`.

Modelling conventions:
* A pandas dataframe of trajectory points is a `List Row`; derived feature
  columns are `Option (List PFloat)` fields of `TrajDF` (a `none` field is an
  absent column, matching the `KeyError`-driven fallback of the source).
* A pandas float value is a `PFloat := Option ℚ`: `none` models any non-finite
  float (NaN or ±infinity); real numbers are modelled by rationals.
* A pandas `Timestamp` is an integer number of epoch seconds; a `Timedelta`'s
  `.seconds` accessor returns the seconds component of the normalized
  timedelta, i.e. the Euclidean remainder of the total seconds modulo 86400.
* `.loc[i : j]` label slicing on a `RangeIndex` is inclusive on both ends and
  clipped at the end of the frame.
* `multiprocessing.Pool(n)` with `n < 1` raises
  `ValueError("Number of processes must be at least 1")`; fallible operations
  are embedded in `Except String`.
* The great-circle (haversine) formula lives in
  `features/helper_functions.py` / `utilities/DistanceCalculator.py`, which are
  not part of the two embedded source files; it is kept abstract as a
  parameter `gc : ℚ → ℚ → ℚ → ℚ → ℚ` (lat₁ lon₁ lat₂ lon₂ ↦ km), since no
  verified property depends on its values.
-/

/-- A pandas float value: `none` models a non-finite value (NaN or ±inf). -/
abbrev PFloat := Option ℚ

/-- Float division as pandas performs it elementwise: any non-finite operand
or a zero divisor yields a non-finite result (inf or NaN), never a finite
number. -/
def pdiv (a b : PFloat) : PFloat :=
  match a, b with
  | some x, some y => if y = 0 then none else some (x / y)
  | _, _ => none

/-- Float subtraction with NaN propagation. -/
def psub (a b : PFloat) : PFloat :=
  match a, b with
  | some x, some y => some (x - y)
  | _, _ => none

/-- `Series.diff()`: first entry is NaN, entry `i+1` is `s[i+1] - s[i]`. -/
def pdiff (l : List PFloat) : List PFloat :=
  match l with
  | [] => []
  | _ :: rest => none :: List.zipWith (fun p c => psub c p) l rest

/-- One trajectory point record: trajectory id, DateTime (epoch seconds),
latitude and longitude. -/
structure Row where
  traj : String
  t : Int
  lat : ℚ
  lon : ℚ
deriving DecidableEq

/-- A trajectory dataframe: the point records plus the optional derived
feature columns added by the pipeline stages (a `none` field models an absent
column). -/
structure TrajDF where
  rows : List Row
  dist : Option (List PFloat) := none
  speed : Option (List PFloat) := none
  accel : Option (List PFloat) := none
  jerk : Option (List PFloat) := none
  distStart : Option (List PFloat) := none
  distPoint : Option (List PFloat) := none
  withinRange : Option (List Bool) := none
deriving DecidableEq

/-- Read a possibly absent column as a list (used after a stage has just
created the column, where it is always present). -/
def colD (o : Option (List PFloat)) : List PFloat := o.getD []

/-- `dataframe[DateTime].diff().dt.seconds`: NaN for the first record, and for
every later record the seconds component (Euclidean remainder mod 86400) of
the timestamp difference from the immediately preceding row of the whole
table, regardless of trajectory-id boundaries. -/
def timeDeltas (rows : List Row) : List PFloat :=
  match rows with
  | [] => []
  | _ :: rest =>
      none :: List.zipWith (fun p c => some (((c.t - p.t).emod 86400 : ℤ) : ℚ)) rows rest

/-- Rename every record's trajectory id (used to state that the time-delta
computation ignores trajectory boundaries). -/
def relabelTraj (f : String → String) (rows : List Row) : List Row :=
  rows.map fun r => { r with traj := f r.traj }

/-- Python `range(0, n, k)` (the chunk start offsets of the source's
partition loops). -/
def pyRange (n k : Nat) : List Nat :=
  (List.range ((n + k - 1) / k)).map (· * k)

/-- Pandas `.loc[i : j]` on a `RangeIndex`: rows `i` through `j` inclusive,
clipped at the end of the frame. -/
def locSlice (xs : List Row) (i j : Nat) : List Row :=
  (xs.drop i).take (j + 1 - i)

/-- The row-count partitioner used by
`create_distance_between_consecutive_column`,
`create_distance_from_start_column`, `create_distance_from_given_point_column`
and `create_point_within_range_column`:
`for i in range(0, len(dataframe), k): chunks.append(df.loc[i : i + k - 1])`
(the source writes `range(0, len(dataframe), 75001)` and
`.loc[i : i + 75000]`, i.e. `k = 75001`). -/
def rowPartition (k : Nat) (xs : List Row) : List (List Row) :=
  (pyRange xs.length k).map fun i => locSlice xs i (i + k - 1)

/-- The error raised by `multiprocessing.Pool(0)` when the chunk list is
empty. -/
def poolError : String := "Number of processes must be at least 1"

/-- Modelled from the spec: `Helpers._consecutive_distance_helper` lives in
`features/helper_functions.py`, which is not among the embedded sources.
Per the spec (§4.3) and the docstring of
`create_distance_between_consecutive_column`: position 0 of each chunk gets
distance 0, a record whose trajectory id differs from its predecessor's gets
distance 0, and every other record gets the great-circle distance from its
predecessor. -/
def consecutiveDistanceHelper (gc : ℚ → ℚ → ℚ → ℚ → ℚ) (chunk : List Row) : List PFloat :=
  match chunk with
  | [] => []
  | _ :: rest =>
      some 0 :: List.zipWith
        (fun p c => if p.traj = c.traj then some (gc p.lat p.lon c.lat c.lon) else some 0)
        chunk rest

/-- Modelled from the spec: `Helpers._start_distance_helper` is not among the
embedded sources. Per the spec (§4.3): the chunk-local distance from the
chunk's first record to each subsequent record; the first record gets 0. -/
def startDistanceHelper (gc : ℚ → ℚ → ℚ → ℚ → ℚ) (chunk : List Row) : List PFloat :=
  match chunk with
  | [] => []
  | r0 :: rest => some 0 :: rest.map fun r => some (gc r0.lat r0.lon r.lat r.lon)

/-- Modelled from the spec: `Helpers._given_point_distance_helper` is not
among the embedded sources. Per the spec (§4.3): the great-circle distance
from the given coordinate to every record of the chunk. -/
def givenPointDistanceHelper (gc : ℚ → ℚ → ℚ → ℚ → ℚ) (coords : ℚ × ℚ)
    (chunk : List Row) : List PFloat :=
  chunk.map fun r => some (gc coords.1 coords.2 r.lat r.lon)

/-- Modelled from the spec: `Helpers._point_within_range_helper` is not among
the embedded sources. Per the spec (§4.3): a flag that is true exactly where
the distance from the given coordinate is within the given range. -/
def pointWithinRangeHelper (gc : ℚ → ℚ → ℚ → ℚ → ℚ) (coords : ℚ × ℚ)
    (dist_range : ℚ) (chunk : List Row) : List Bool :=
  chunk.map fun r => if gc coords.1 coords.2 r.lat r.lon ≤ dist_range then true else false

/-- `SpatialFeatures.create_distance_between_consecutive_column`: partition
into chunks of `.loc[i : i + 75000]` with step 75001, run the consecutive
distance helper over a pool of `len(chunks)` processes (raising if there are
zero chunks), and concatenate the partial results in order. -/
def create_distance_between_consecutive_column (gc : ℚ → ℚ → ℚ → ℚ → ℚ)
    (df : TrajDF) : Except String TrajDF :=
  let chunks := rowPartition 75001 df.rows
  if chunks.length < 1 then .error poolError
  else .ok { df with dist := some ((chunks.map (consecutiveDistanceHelper gc)).flatten) }

/-- `SpatialFeatures.create_distance_from_start_column`: same
partition/pool/merge pattern with the start-distance helper. -/
def create_distance_from_start_column (gc : ℚ → ℚ → ℚ → ℚ → ℚ)
    (df : TrajDF) : Except String TrajDF :=
  let parts := rowPartition 75001 df.rows
  if parts.length < 1 then .error poolError
  else .ok { df with distStart := some ((parts.map (startDistanceHelper gc)).flatten) }

/-- `SpatialFeatures.create_distance_from_given_point_column`: same
partition/pool/merge pattern with the given-point distance helper. -/
def create_distance_from_given_point_column (gc : ℚ → ℚ → ℚ → ℚ → ℚ)
    (coords : ℚ × ℚ) (df : TrajDF) : Except String TrajDF :=
  let part_list := rowPartition 75001 df.rows
  if part_list.length < 1 then .error poolError
  else .ok { df with distPoint := some ((part_list.map (givenPointDistanceHelper gc coords)).flatten) }

/-- `SpatialFeatures.create_point_within_range_column`: same
partition/pool/merge pattern with the point-within-range helper. -/
def create_point_within_range_column (gc : ℚ → ℚ → ℚ → ℚ → ℚ)
    (coords : ℚ × ℚ) (dist_range : ℚ) (df : TrajDF) : Except String TrajDF :=
  let dataframe_list := rowPartition 75001 df.rows
  if dataframe_list.length < 1 then .error poolError
  else
    .ok { df with withinRange := some ((dataframe_list.map (pointWithinRangeHelper gc coords dist_range)).flatten) }

/-- `SpatialFeatures.create_speed_from_prev_column`: if the
`Distance_prev_to_curr` column is present, the new speed column is the
elementwise division of it by `DateTime.diff().dt.seconds`; otherwise a
`KeyError` is caught and the distance column is computed first by
`create_distance_between_consecutive_column`. -/
def create_speed_from_prev_column (gc : ℚ → ℚ → ℚ → ℚ → ℚ)
    (df : TrajDF) : Except String TrajDF :=
  match df.dist with
  | some distances =>
      .ok { df with speed := some (List.zipWith pdiv distances (timeDeltas df.rows)) }
  | none =>
      match create_distance_between_consecutive_column gc df with
      | .error e => .error e
      | .ok df1 =>
          .ok { df1 with speed := some (List.zipWith pdiv (colD df1.dist) (timeDeltas df1.rows)) }

/-- `SpatialFeatures.create_acceleration_from_prev_column`: if the
`Speed_prev_to_curr` column is present, the acceleration column is
`speed.diff() / DateTime.diff().dt.seconds`; otherwise the speed column is
computed first by `create_speed_from_prev_column`. -/
def create_acceleration_from_prev_column (gc : ℚ → ℚ → ℚ → ℚ → ℚ)
    (df : TrajDF) : Except String TrajDF :=
  match df.speed with
  | some sp =>
      .ok { df with accel := some (List.zipWith pdiv (pdiff sp) (timeDeltas df.rows)) }
  | none =>
      match create_speed_from_prev_column gc df with
      | .error e => .error e
      | .ok df1 =>
          .ok { df1 with accel := some (List.zipWith pdiv (pdiff (colD df1.speed)) (timeDeltas df1.rows)) }

/-- `SpatialFeatures.create_jerk_from_prev_column`: if the
`Acceleration_prev_to_curr` column is present, the jerk column is
`acceleration.diff() / DateTime.diff().dt.seconds`; otherwise the
acceleration column is computed first by
`create_acceleration_from_prev_column`. -/
def create_jerk_from_prev_column (gc : ℚ → ℚ → ℚ → ℚ → ℚ)
    (df : TrajDF) : Except String TrajDF :=
  match df.accel with
  | some acc =>
      .ok { df with jerk := some (List.zipWith pdiv (pdiff acc) (timeDeltas df.rows)) }
  | none =>
      match create_acceleration_from_prev_column gc df with
      | .error e => .error e
      | .ok df1 =>
          .ok { df1 with jerk := some (List.zipWith pdiv (pdiff (colD df1.accel)) (timeDeltas df1.rows)) }

/-- `Series.min()` over a list (`none` on an empty list, mirroring pandas
returning NaN so that the subsequent equality filter matches nothing). -/
def listMin {α : Type} [Min α] (l : List α) : Option α :=
  match l with
  | [] => none
  | x :: xs =>
      some (match listMin xs with
            | none => x
            | some m => min x m)

/-- `Series.max()` over a list (`none` on an empty list). -/
def listMax {α : Type} [Max α] (l : List α) : Option α :=
  match l with
  | [] => none
  | x :: xs =>
      some (match listMax xs with
            | none => x
            | some m => max x m)

/-- `SpatialFeatures.get_bounding_box`:
`(df[LAT].min(), df[LONG].min(), df[LAT].max(), df[LONG].max())`. -/
def get_bounding_box (rows : List Row) :
    Option ℚ × Option ℚ × Option ℚ × Option ℚ :=
  (listMin (rows.map (·.lat)), listMin (rows.map (·.lon)),
   listMax (rows.map (·.lat)), listMax (rows.map (·.lon)))

/-- The descriptive message returned by `get_start_location` /
`get_end_location` for an unknown trajectory id. -/
def missingIdMessage (traj_id : String) : String :=
  "Trajectory ID: " ++ traj_id ++ " does not exist in the dataset. Please try again!"

/-- `SpatialFeatures.get_start_location` with an explicit `traj_id` (the
`traj_id is None` branch of the source is not exercised by any claim): filter
the rows of the given trajectory, keep those whose DateTime equals the
filtered minimum (nothing matches when the filter is empty, since comparing
against the NaN minimum is always false), and return the first such
(lat, lon), or the descriptive message when nothing is left. -/
def get_start_location (rows : List Row) (traj_id : String) : Sum String (ℚ × ℚ) :=
  let filt := rows.filter fun r => r.traj = traj_id
  let start_loc := filt.filter fun r => some r.t = listMin (filt.map (·.t))
  match start_loc with
  | [] => .inl (missingIdMessage traj_id)
  | r :: _ => .inr (r.lat, r.lon)

/-- `SpatialFeatures.get_end_location` with an explicit `traj_id`: identical
to `get_start_location` with the maximum DateTime in place of the minimum. -/
def get_end_location (rows : List Row) (traj_id : String) : Sum String (ℚ × ℚ) :=
  let filt := rows.filter fun r => r.traj = traj_id
  let start_loc := filt.filter fun r => some r.t = listMax (filt.map (·.t))
  match start_loc with
  | [] => .inl (missingIdMessage traj_id)
  | r :: _ => .inr (r.lat, r.lon)

/-!
## The statistics module (`ptrail/preprocessing/statistics.py`)

A stats table (the long-format output of `generate_kinematic_stats`) is
modelled by `StatsDF`: every row carries a trajectory id (the `traj_id` index
level), the value of the `'Columns'` column (a kinematic feature name), one
rational value per summary-statistic column, and the value of the
target/label column. The names of the statistic columns and of the target
column are part of the table schema (`statNames`, `targetName`); pandas
column names are unique, so the well-formedness hypotheses used below state
that every row's statistic keys are exactly `statNames`.

`const.ORDERED_COLS` lives in `ptrail/utilities/constants.py`, which is not
among the embedded sources; per the spec (§4.4, §9) it is an external fixed
ordered list of canonical pivot column names. Because `pivot_stats_df`
aliases and mutates it (`cols = const.ORDERED_COLS; cols.append(...)`), it is
threaded through `pivot_stats_df` explicitly as mutable state: the function
consumes the current list and returns the list as it is left after the call.
-/

/-- A cell of a pandas dataframe in the statistics pathway. -/
inductive Cell where
  | num (q : ℚ)
  | str (s : String)
  | nan
deriving DecidableEq

/-- One row of the long-format stats table. -/
structure StatsRow where
  traj : String
  feature : String
  stats : List (String × ℚ)
  targetVal : String
deriving DecidableEq

/-- The long-format stats table together with its schema. -/
structure StatsDF where
  statNames : List String
  targetName : String
  rows : List StatsRow
deriving DecidableEq

/-- The wide-format pivoted result: named columns and one row of cells per
trajectory id. -/
structure PivotedDF where
  cols : List String
  prows : List (String × List Cell)
deriving DecidableEq

/-- Column lookup by name in a `(name, value)` association list (first match,
as for unique pandas column labels). -/
def qLookup (c : String) : List (String × ℚ) → Option ℚ
  | [] => none
  | (k, v) :: rest => if c = k then some v else qLookup c rest

/-- Cell lookup by name in a `(name, cell)` association list. -/
def colLookup (c : String) : List (String × Cell) → Option Cell
  | [] => none
  | (k, v) :: rest => if c = k then some v else colLookup c rest

/-- The column labels of the long-format stats table (after `reset_index` the
frame has the `'Columns'` column, the statistic columns and the target
column; the `traj_id` index is not a column label). -/
def allCols (df : StatsDF) : List String :=
  "Columns" :: df.statNames ++ [df.targetName]

/-- `small[c].iloc[k]`-style access: the cell of column `c` in row `r`
(`none` models a `KeyError`). -/
def colCell (df : StatsDF) (r : StatsRow) (c : String) : Option Cell :=
  if c = "Columns" then some (.str r.feature)
  else
    match qLookup c r.stats with
    | some q => some (.num q)
    | none => if c = df.targetName then some (.str r.targetVal) else none

/-- Python `str.strip('|')`: remove leading and trailing pipe characters
(the source applies it to the joined pivot column names). -/
def stripPipes (s : String) : String :=
  .mk (((s.toList.dropWhile (· = '|')).reverse.dropWhile (· = '|')).reverse)

/-- Insertion into a `≤`-sorted list of strings. -/
def insertSorted (x : String) : List String → List String
  | [] => [x]
  | y :: ys => if x ≤ y then x :: y :: ys else y :: insertSorted x ys

/-- Sort a list of strings (pandas `pivot_table` emits its column labels in
sorted order). -/
def sortStr (l : List String) : List String := l.foldr insertSorted []

/-- `pandas.unique` / `Index.unique`: the distinct values in first-appearance
order. -/
def uniqueFirstAux (seen : List String) : List String → List String
  | [] => []
  | x :: xs => if x ∈ seen then uniqueFirstAux seen xs else x :: uniqueFirstAux (x :: seen) xs

/-- The distinct values of a list in first-appearance order. -/
def uniqueFirst (l : List String) : List String := uniqueFirstAux [] l

/-- One aggregated `pivot_table` cell: the mean of statistic column `s` over
the rows of the chunk whose `'Columns'` value is `f` (pandas yields NaN when
no value contributes). -/
def statMean (small : List StatsRow) (s f : String) : Cell :=
  let vs := (small.filter fun r => r.feature = f).filterMap fun r => qLookup s r.stats
  match vs with
  | [] => Cell.nan
  | _ => Cell.num (vs.sum / (vs.length : ℚ))

/-- The body of the per-trajectory loop of `Statistics.pivot_stats_df` for
one trajectory id `v`: slice out the id's rows, read the first row's target
value (`small[target_col_name].iloc[0]`, a `KeyError` if the name is not a
column), drop the hard-coded `'Species'` column (a `KeyError` if absent),
pivot with `index='traj_id', columns='Columns'` (the string-valued target
column is silently dropped by `pivot_table` when it was not the dropped
`'Species'` column; the numeric value columns are aggregated by mean and the
`(value, feature)` labels are emitted in sorted order, joined by `'_'` and
stripped of pipes), and re-attach the target value as the last column.
`pivotCols` is the pivoted `(column name, cell)` list of one trajectory's
slice `small`; `pivotOne` is the whole loop body. -/
def pivotCols (df : StatsDF) (small : List StatsRow) : List (String × Cell) :=
  (sortStr (df.statNames.filter fun s => s ≠ "Species")).flatMap fun s =>
    (sortStr (uniqueFirst (small.map fun r => r.feature))).map fun f =>
      (stripPipes (s ++ "_" ++ f), statMean small s f)

def pivotOne (df : StatsDF) (target : String) (v : String) :
    Except String (String × List (String × Cell)) :=
  match df.rows.filter fun r => r.traj = v with
  | [] => .error "single positional indexer is out-of-bounds"
  | r0 :: rest =>
    match colCell df r0 target with
    | none => .error ("KeyError: " ++ target)
    | some targetCell =>
      if "Species" ∈ allCols df then
        .ok (v, pivotCols df (r0 :: rest) ++ [(target, targetCell)])
      else .error "KeyError: Species"

/-- The per-trajectory loop of `pivot_stats_df` as executed in order: the
first raised `KeyError` aborts the whole call. -/
def exceptMap (f : α → Except String β) : List α → Except String (List β)
  | [] => .ok []
  | x :: xs =>
    match f x with
    | .error e => .error e
    | .ok y =>
      match exceptMap f xs with
      | .error e => .error e
      | .ok ys => .ok (y :: ys)

/-- `to_return[cols]`: reorder (and, for duplicated labels, duplicate) the
columns of the concatenated chunks; a label that is not a column of some
chunk raises a `KeyError`. -/
def selectCols (cols : List String) (chunks : List (String × List (String × Cell))) :
    Except String PivotedDF :=
  if chunks.all (fun ch => cols.all fun c => (colLookup c ch.2).isSome) then
    .ok { cols := cols,
          prows := chunks.map fun ch => (ch.1, cols.map fun c => (colLookup c ch.2).getD Cell.nan) }
  else .error "KeyError"

/-- `Statistics.pivot_stats_df`. The first component of the result is the
returned table (or the raised error); the second component is the content of
the module-level `const.ORDERED_COLS` list after the call: the source binds
`cols = const.ORDERED_COLS` (an alias, not a copy) and then executes
`cols.append(target_col_name)`, so a successful pass through line 155
permanently appends the target name to the module constant. -/
def pivot_stats_df (ordered_cols : List String) (df : StatsDF) (target_col_name : String) :
    Except String PivotedDF × List String :=
  match exceptMap (pivotOne df target_col_name) (uniqueFirst (df.rows.map fun r => r.traj)) with
  | .error e => (.error e, ordered_cols)
  | .ok chunks =>
    (selectCols (ordered_cols ++ [target_col_name]) chunks, ordered_cols ++ [target_col_name])

/-!
## Lemmas about the row-count partitioner
-/

/-- `range(0, 0, k)` is empty. -/
lemma pyRange_zero (k : Nat) (hk : 0 < k) : pyRange 0 k = [] := by
  unfold pyRange
  have h : (0 + k - 1) / k = 0 := Nat.div_eq_of_lt (by omega)
  rw [h]
  rfl

/-- Peeling one chunk off the ceiling division that counts the chunk starts. -/
lemma ceilDiv_succ (n k : Nat) (hk : 0 < k) (hn : 0 < n) :
    (n + k - 1) / k = (n - k + k - 1) / k + 1 := by
  have h1 : n + k - 1 = (n - 1) + k := by omega
  rw [h1, Nat.add_div_right _ hk]
  congr 1
  rcases Nat.le_total n k with h | h
  · have h2 : n - k = 0 := by omega
    rw [h2, Nat.div_eq_of_lt (by omega : n - 1 < k), Nat.div_eq_of_lt (by omega : 0 + k - 1 < k)]
  · have h2 : n - k + k - 1 = n - 1 := by omega
    rw [h2]

/-- `range(0, n, k)` for positive `n` starts at 0 and continues with the
starts for the remaining `n - k` positions, shifted by `k`. -/
lemma pyRange_succ (n k : Nat) (hk : 0 < k) (hn : 0 < n) :
    pyRange n k = 0 :: (pyRange (n - k) k).map (· + k) := by
  unfold pyRange
  rw [ceilDiv_succ n k hk hn, List.range_succ_eq_map]
  simp [List.map_map, Function.comp, Nat.succ_mul]

/-- Concatenating the chunks of the row-count partitioner, in order,
reproduces the input list (fuel-indexed induction on the length). -/
lemma rowPartition_flatten_aux (k : Nat) (hk : 0 < k) :
    ∀ (n : Nat) (xs : List Row), xs.length ≤ n → (rowPartition k xs).flatten = xs := by
  intro n
  induction n with
  | zero =>
    intro xs h
    have hxs : xs = [] := List.eq_nil_of_length_eq_zero (by omega)
    subst hxs
    simp [rowPartition, pyRange_zero k hk]
  | succ n ih =>
    intro xs h
    rcases Nat.eq_zero_or_pos xs.length with h0 | hpos
    · have hxs : xs = [] := List.eq_nil_of_length_eq_zero h0
      subst hxs
      simp [rowPartition, pyRange_zero k hk]
    · have hhead : locSlice xs 0 (0 + k - 1) = xs.take k := by
        unfold locSlice
        have he : 0 + k - 1 + 1 - 0 = k := by omega
        rw [he, List.drop_zero]
      have htail : (pyRange (xs.length - k) k).map ((fun i => locSlice xs i (i + k - 1)) ∘ (· + k)) =
          rowPartition k (xs.drop k) := by
        unfold rowPartition
        rw [List.length_drop]
        apply List.map_congr_left
        intro i _
        simp only [Function.comp_apply]
        unfold locSlice
        rw [List.drop_drop]
        have he : i + k + k - 1 + 1 - (i + k) = i + k - 1 + 1 - i := by omega
        have he2 : i + k = k + i := by omega
        rw [he, he2]
      calc (rowPartition k xs).flatten
          = (locSlice xs 0 (0 + k - 1) ::
              (pyRange (xs.length - k) k).map ((fun i => locSlice xs i (i + k - 1)) ∘ (· + k))).flatten := by
            unfold rowPartition
            rw [pyRange_succ _ k hk hpos, List.map_cons, List.map_map]
        _ = xs.take k ++ (rowPartition k (xs.drop k)).flatten := by
            rw [List.flatten_cons, hhead, htail]
        _ = xs.take k ++ xs.drop k := by
            rw [ih (xs.drop k) (by rw [List.length_drop]; omega)]
        _ = xs := List.take_append_drop k xs

/-- C1 --- Partition-then-merge round trip: for every input table (any length,
including 0 and 1 rows), the chunks produced by the row-count partitioner
used inside `create_distance_between_consecutive_column` (step 75001 and
inclusive slices `.loc[i : i + 75000]`, i.e. `rowPartition 75001`),
concatenated in order, reproduce the original table exactly: same rows, same
order, no row duplicated and no row lost. -/
theorem c1_partition_roundtrip (xs : List Row) :
    (rowPartition 75001 xs).flatten = xs :=
  rowPartition_flatten_aux 75001 (by norm_num) xs.length xs le_rfl

/-- A concrete record used in concrete tables below. -/
def rowA : Row := { traj := "a", t := 0, lat := 0, lon := 0 }

/-- C3 --- the claimed 75,000-record ceiling fails: `.loc[i : i + 75000]`
slicing is inclusive on both ends, so on a table of 75,001 rows the
partitioner used by the four parallel feature builders produces a chunk of
75,001 records, one more than the ceiling stated by the spec and by the
source's own comment ("smaller pieces of 75000 rows each"). -/
theorem c3_chunk_exceeds_ceiling :
    ∃ c ∈ rowPartition 75001 (List.replicate 75001 rowA), 75000 < c.length := by
  have hlen : (List.replicate 75001 rowA).length = 75001 := List.length_replicate _ _
  have hrange : pyRange 75001 75001 = [0] := by
    have hdiv : (75001 + 75001 - 1) / 75001 = 1 := by norm_num
    unfold pyRange
    rw [hdiv]
    rfl
  refine ⟨locSlice (List.replicate 75001 rowA) 0 (0 + 75001 - 1), ?_, ?_⟩
  · unfold rowPartition
    rw [hlen, hrange, List.map_cons, List.map_nil]
    exact List.mem_singleton_self _
  · unfold locSlice
    rw [List.drop_zero, List.length_take, hlen]
    omega

/-- C10 --- on an empty input table the partition loop produces zero chunks,
so each of the four parallel feature builders requests a worker pool of zero
processes and raises (`multiprocessing.Pool(0)` refuses), instead of
returning an empty table. -/
theorem c10_empty_table_error (gc : ℚ → ℚ → ℚ → ℚ → ℚ) (coords : ℚ × ℚ) (dist_range : ℚ)
    (df : TrajDF) (h : df.rows = []) :
    create_distance_between_consecutive_column gc df = .error poolError ∧
    create_distance_from_start_column gc df = .error poolError ∧
    create_distance_from_given_point_column gc coords df = .error poolError ∧
    create_point_within_range_column gc coords dist_range df = .error poolError := by
  have hpart : rowPartition 75001 df.rows = [] := by
    rw [h]
    simp [rowPartition, pyRange_zero 75001 (by norm_num)]
  refine ⟨?_, ?_, ?_, ?_⟩ <;>
    simp [create_distance_between_consecutive_column, create_distance_from_start_column,
      create_distance_from_given_point_column, create_point_within_range_column, hpart]

/-- The empty trajectory dataframe. -/
def emptyDF : TrajDF := { rows := [] }

/-- Witness for C10: the empty-table hypothesis holds for `emptyDF` and the
four builders indeed raise the zero-process pool error there. -/
theorem c10_empty_table_error_witness :
    emptyDF.rows = [] ∧
    (create_distance_between_consecutive_column (fun _ _ _ _ => 0) emptyDF = .error poolError ∧
     create_distance_from_start_column (fun _ _ _ _ => 0) emptyDF = .error poolError ∧
     create_distance_from_given_point_column (fun _ _ _ _ => 0) (0, 0) emptyDF = .error poolError ∧
     create_point_within_range_column (fun _ _ _ _ => 0) (0, 0) 1 emptyDF = .error poolError) :=
  ⟨rfl, c10_empty_table_error (fun _ _ _ _ => 0) (0, 0) 1 emptyDF rfl⟩

/-!
## Lemmas about the time-delta divisor
-/

/-- The entry of `timeDeltas` at a non-initial position is the seconds
component (remainder mod 86400) of the timestamp difference from the
immediately preceding row of the whole table. -/
lemma timeDeltas_getElem (rows : List Row) (j : Nat) (p c : Row)
    (hp : rows[j]? = some p) (hc : rows[j+1]? = some c) :
    (timeDeltas rows)[j+1]? = some (some (((c.t - p.t).emod 86400 : ℤ) : ℚ)) := by
  cases rows with
  | nil => simp at hp
  | cons r rest =>
      have hrest : rest[j]? = some c := by
        rw [← List.getElem?_cons_succ (a := r)]
        exact hc
      show (none :: List.zipWith (fun p c => some (((c.t - p.t).emod 86400 : ℤ) : ℚ))
        (r :: rest) rest)[j+1]? = _
      rw [List.getElem?_cons_succ, List.getElem?_zipWith, hp, hrest]

/-- `timeDeltas` looks only at timestamps: zipping the difference function
over relabelled rows gives the same list. -/
lemma zipWith_emod_map (g : Row → Row) (ht : ∀ r, (g r).t = r.t) :
    ∀ (l1 l2 : List Row),
      List.zipWith (fun p c => some (((c.t - p.t).emod 86400 : ℤ) : ℚ)) (l1.map g) (l2.map g) =
      List.zipWith (fun p c => some (((c.t - p.t).emod 86400 : ℤ) : ℚ)) l1 l2 := by
  intro l1
  induction l1 with
  | nil => intro l2; simp
  | cons x xs ih =>
      intro l2
      cases l2 with
      | nil => simp
      | cons y ys => simp [ih, ht]

/-- Renaming trajectory ids does not change the time deltas: the difference
is taken across trajectory-identifier boundaries. -/
lemma timeDeltas_relabel (f : String → String) (rows : List Row) :
    timeDeltas (relabelTraj f rows) = timeDeltas rows := by
  cases rows with
  | nil => rfl
  | cons r rest =>
      have h := zipWith_emod_map (fun x => ({ x with traj := f x.traj } : Row))
        (fun _ => rfl) (r :: rest) rest
      calc timeDeltas (relabelTraj f (r :: rest))
          = none :: List.zipWith (fun p c => some (((c.t - p.t).emod 86400 : ℤ) : ℚ))
              ((r :: rest).map (fun x => ({ x with traj := f x.traj } : Row)))
              (rest.map (fun x => ({ x with traj := f x.traj } : Row))) := rfl
        _ = none :: List.zipWith (fun p c => some (((c.t - p.t).emod 86400 : ℤ) : ℚ))
              (r :: rest) rest := by rw [h]
        _ = timeDeltas (r :: rest) := rfl

/-- C9 --- in `create_speed_from_prev_column`,
`create_acceleration_from_prev_column` and `create_jerk_from_prev_column`
the per-row divisor is `timeDeltas` of the whole table; its entry for a row
is the seconds component --- a value in `[0, 86399]` --- of the timestamp
difference from the immediately preceding row of the table, the difference is
taken across trajectory-identifier boundaries (relabelling ids changes
nothing), and for consecutive rows at least one day apart the divisor is not
the total elapsed seconds. -/
theorem c9_divisor_seconds_component (rows : List Row) (j : Nat) (p c : Row)
    (hp : rows[j]? = some p) (hc : rows[j+1]? = some c) :
    (∀ (gc : ℚ → ℚ → ℚ → ℚ → ℚ) (df : TrajDF) (ds : List PFloat),
        df.rows = rows → df.dist = some ds →
        create_speed_from_prev_column gc df =
          .ok { df with speed := some (List.zipWith pdiv ds (timeDeltas rows)) }) ∧
    (∀ (gc : ℚ → ℚ → ℚ → ℚ → ℚ) (df : TrajDF) (sp : List PFloat),
        df.rows = rows → df.speed = some sp →
        create_acceleration_from_prev_column gc df =
          .ok { df with accel := some (List.zipWith pdiv (pdiff sp) (timeDeltas rows)) }) ∧
    (∀ (gc : ℚ → ℚ → ℚ → ℚ → ℚ) (df : TrajDF) (ac : List PFloat),
        df.rows = rows → df.accel = some ac →
        create_jerk_from_prev_column gc df =
          .ok { df with jerk := some (List.zipWith pdiv (pdiff ac) (timeDeltas rows)) }) ∧
    (timeDeltas rows)[j+1]? = some (some (((c.t - p.t).emod 86400 : ℤ) : ℚ)) ∧
    0 ≤ (c.t - p.t).emod 86400 ∧ (c.t - p.t).emod 86400 ≤ 86399 ∧
    (∀ f : String → String, timeDeltas (relabelTraj f rows) = timeDeltas rows) ∧
    (86400 ≤ c.t - p.t → (c.t - p.t).emod 86400 ≠ c.t - p.t) := by
  have hnonneg : 0 ≤ (c.t - p.t).emod 86400 :=
    Int.emod_nonneg _ (by norm_num)
  have hlt : (c.t - p.t).emod 86400 < 86400 :=
    Int.emod_lt_of_pos _ (by norm_num)
  refine ⟨?_, ?_, ?_, timeDeltas_getElem rows j p c hp hc, hnonneg, by omega,
    fun f => timeDeltas_relabel f rows, fun hday heq => by omega⟩
  · intro gc df ds hrows hdist
    subst hrows
    simp [create_speed_from_prev_column, hdist]
  · intro gc df sp hrows hspeed
    subst hrows
    simp [create_acceleration_from_prev_column, hspeed]
  · intro gc df ac hrows haccel
    subst hrows
    simp [create_jerk_from_prev_column, haccel]

/-- A concrete two-row table whose records are one day and five seconds
apart and belong to different trajectories. -/
def rowsDayApart : List Row :=
  [{ traj := "a", t := 0, lat := 0, lon := 0 },
   { traj := "b", t := 86405, lat := 1, lon := 1 }]

/-- Witness for C9 at the concrete table `rowsDayApart`: its divisor entry is
5, not the 86405 elapsed seconds. -/
theorem c9_divisor_seconds_component_witness :
    rowsDayApart[0]? = some { traj := "a", t := 0, lat := 0, lon := 0 } ∧
    rowsDayApart[1]? = some { traj := "b", t := 86405, lat := 1, lon := 1 } ∧
    ((∀ (gc : ℚ → ℚ → ℚ → ℚ → ℚ) (df : TrajDF) (ds : List PFloat),
        df.rows = rowsDayApart → df.dist = some ds →
        create_speed_from_prev_column gc df =
          .ok { df with speed := some (List.zipWith pdiv ds (timeDeltas rowsDayApart)) }) ∧
     (∀ (gc : ℚ → ℚ → ℚ → ℚ → ℚ) (df : TrajDF) (sp : List PFloat),
        df.rows = rowsDayApart → df.speed = some sp →
        create_acceleration_from_prev_column gc df =
          .ok { df with accel := some (List.zipWith pdiv (pdiff sp) (timeDeltas rowsDayApart)) }) ∧
     (∀ (gc : ℚ → ℚ → ℚ → ℚ → ℚ) (df : TrajDF) (ac : List PFloat),
        df.rows = rowsDayApart → df.accel = some ac →
        create_jerk_from_prev_column gc df =
          .ok { df with jerk := some (List.zipWith pdiv (pdiff ac) (timeDeltas rowsDayApart)) }) ∧
     (timeDeltas rowsDayApart)[1]? =
       some (some ((((86405 : ℤ) - 0).emod 86400 : ℤ) : ℚ)) ∧
     0 ≤ ((86405 : ℤ) - 0).emod 86400 ∧ ((86405 : ℤ) - 0).emod 86400 ≤ 86399 ∧
     (∀ f : String → String,
        timeDeltas (relabelTraj f rowsDayApart) = timeDeltas rowsDayApart) ∧
     (86400 ≤ (86405 : ℤ) - 0 → ((86405 : ℤ) - 0).emod 86400 ≠ (86405 : ℤ) - 0)) :=
  ⟨rfl, rfl, c9_divisor_seconds_component rowsDayApart 0 _ _ rfl rfl⟩

/-- C5 --- with the distance-from-previous column present,
`create_speed_from_prev_column` succeeds and sets the speed column to the
elementwise division of the distances by the time deltas; where two
consecutive records share the same timestamp the resulting speed entry is
`none` (non-finite: NaN or infinity), which is distinct from a finite zero. -/
theorem c5_speed_zero_delta_nonfinite (gc : ℚ → ℚ → ℚ → ℚ → ℚ) (df : TrajDF)
    (ds : List PFloat) (hd : df.dist = some ds) (hlen : ds.length = df.rows.length) :
    create_speed_from_prev_column gc df =
      .ok { df with speed := some (List.zipWith pdiv ds (timeDeltas df.rows)) } ∧
    (∀ (j : Nat) (p c : Row), df.rows[j]? = some p → df.rows[j+1]? = some c →
      c.t = p.t →
      (List.zipWith pdiv ds (timeDeltas df.rows))[j+1]? = some none) ∧
    (none : PFloat) ≠ some 0 := by
  refine ⟨by simp [create_speed_from_prev_column, hd], ?_, by simp⟩
  intro j p c hp hc heq
  rw [List.getElem?_zipWith, timeDeltas_getElem df.rows j p c hp hc]
  have hj : j + 1 < df.rows.length := by
    by_contra hge
    rw [List.getElem?_eq_none (by omega)] at hc
    exact Option.noConfusion hc
  cases hds : ds[j+1]? with
  | none =>
      rw [List.getElem?_eq_none_iff] at hds
      omega
  | some x =>
      have h0 : c.t - p.t = 0 := by omega
      rw [h0]
      have hz : Int.emod 0 86400 = 0 := by decide
      cases x <;> simp [pdiv, hz]

/-- A table with two records sharing one timestamp and with a
distance-from-previous column present. -/
def dfSameTime : TrajDF :=
  { rows := [{ traj := "a", t := 5, lat := 0, lon := 0 },
             { traj := "a", t := 5, lat := 1, lon := 1 }],
    dist := some [some 0, some 7] }

/-- Witness for C5 at `dfSameTime`: the hypotheses hold and the speed entry
behind the duplicate timestamp is non-finite. -/
theorem c5_speed_zero_delta_nonfinite_witness :
    dfSameTime.dist = some [some 0, some 7] ∧
    ([some 0, some 7] : List PFloat).length = dfSameTime.rows.length ∧
    (create_speed_from_prev_column (fun _ _ _ _ => 0) dfSameTime =
      .ok { dfSameTime with
            speed := some (List.zipWith pdiv [some 0, some 7] (timeDeltas dfSameTime.rows)) } ∧
     (∀ (j : Nat) (p c : Row), dfSameTime.rows[j]? = some p →
        dfSameTime.rows[j+1]? = some c → c.t = p.t →
        (List.zipWith pdiv [some 0, some 7] (timeDeltas dfSameTime.rows))[j+1]? = some none) ∧
     (none : PFloat) ≠ some 0) :=
  ⟨rfl, rfl,
   c5_speed_zero_delta_nonfinite (fun _ _ _ _ => 0) dfSameTime [some 0, some 7] rfl rfl⟩

/-- C4 --- fallback chain: on a table with none of the distance, speed and
acceleration prerequisite columns, calling `create_jerk_from_prev_column`
directly yields the same jerk column as calling
`create_speed_from_prev_column`, then `create_acceleration_from_prev_column`,
then `create_jerk_from_prev_column` in sequence on that table. -/
theorem c4_jerk_fallback_chain (gc : ℚ → ℚ → ℚ → ℚ → ℚ) (df : TrajDF)
    (h1 : df.dist = none) (h2 : df.speed = none) (h3 : df.accel = none) :
    (create_jerk_from_prev_column gc df).map (fun d => d.jerk) =
      ((create_speed_from_prev_column gc df).bind fun d1 =>
        (create_acceleration_from_prev_column gc d1).bind fun d2 =>
          create_jerk_from_prev_column gc d2).map (fun d => d.jerk) := by
  cases hdist : create_distance_between_consecutive_column gc df with
  | error e =>
      simp [create_jerk_from_prev_column, create_acceleration_from_prev_column,
        create_speed_from_prev_column, h1, h2, h3, hdist, Except.bind]
  | ok df1 =>
      simp [create_jerk_from_prev_column, create_acceleration_from_prev_column,
        create_speed_from_prev_column, h1, h2, h3, hdist, colD, Except.bind]

/-- A concrete table with no derived feature columns. -/
def dfBare : TrajDF := { rows := rowsDayApart }

/-- Witness for C4 at `dfBare` with a constant distance formula. -/
theorem c4_jerk_fallback_chain_witness :
    dfBare.dist = none ∧ dfBare.speed = none ∧ dfBare.accel = none ∧
    ((create_jerk_from_prev_column (fun _ _ _ _ => 1) dfBare).map (fun d => d.jerk) =
      ((create_speed_from_prev_column (fun _ _ _ _ => 1) dfBare).bind fun d1 =>
        (create_acceleration_from_prev_column (fun _ _ _ _ => 1) d1).bind fun d2 =>
          create_jerk_from_prev_column (fun _ _ _ _ => 1) d2).map (fun d => d.jerk)) :=
  ⟨rfl, rfl, rfl, c4_jerk_fallback_chain (fun _ _ _ _ => 1) dfBare rfl rfl rfl⟩

/-!
## Lemmas about `listMin` / `listMax`
-/

/-- A nonempty list has a minimum and it is one of the entries. -/
lemma listMin_of_ne_nil {α : Type} [LinearOrder α] :
    ∀ (l : List α), l ≠ [] → ∃ m, listMin l = some m ∧ m ∈ l := by
  intro l
  induction l with
  | nil => intro h; exact absurd rfl h
  | cons x xs ih =>
      intro _
      cases hxs : listMin xs with
      | none =>
          refine ⟨x, ?_, List.mem_cons_self x xs⟩
          unfold listMin
          rw [hxs]
      | some m2 =>
          have hxs_ne : xs ≠ [] := by
            intro hnil
            subst hnil
            simp [listMin] at hxs
          obtain ⟨m2x, hm2x, hmem2⟩ := ih hxs_ne
          rw [hxs] at hm2x
          obtain rfl : m2 = m2x := by injection hm2x
          refine ⟨min x m2, ?_, ?_⟩
          · unfold listMin
            rw [hxs]
          · rcases min_choice x m2 with hc | hc
            · rw [hc]; exact List.mem_cons_self x xs
            · rw [hc]; exact List.mem_cons_of_mem x hmem2

/-- A nonempty list has a maximum and it is one of the entries. -/
lemma listMax_of_ne_nil {α : Type} [LinearOrder α] :
    ∀ (l : List α), l ≠ [] → ∃ m, listMax l = some m ∧ m ∈ l := by
  intro l
  induction l with
  | nil => intro h; exact absurd rfl h
  | cons x xs ih =>
      intro _
      cases hxs : listMax xs with
      | none =>
          refine ⟨x, ?_, List.mem_cons_self x xs⟩
          unfold listMax
          rw [hxs]
      | some m2 =>
          have hxs_ne : xs ≠ [] := by
            intro hnil
            subst hnil
            simp [listMax] at hxs
          obtain ⟨m2x, hm2x, hmem2⟩ := ih hxs_ne
          rw [hxs] at hm2x
          obtain rfl : m2 = m2x := by injection hm2x
          refine ⟨max x m2, ?_, ?_⟩
          · unfold listMax
            rw [hxs]
          · rcases max_choice x m2 with hc | hc
            · rw [hc]; exact List.mem_cons_self x xs
            · rw [hc]; exact List.mem_cons_of_mem x hmem2

/-- The minimum of a nonempty list bounds every entry from below. -/
lemma listMin_le {α : Type} [LinearOrder α] :
    ∀ (l : List α) (m : α), listMin l = some m → ∀ a ∈ l, m ≤ a := by
  intro l
  induction l with
  | nil => intro m h; simp [listMin] at h
  | cons x xs ih =>
      intro m h a ha
      unfold listMin at h
      cases hxs : listMin xs with
      | none =>
          have hxs_nil : xs = [] := by
            cases xs with
            | nil => rfl
            | cons y ys => simp [listMin] at hxs
          subst hxs_nil
          rw [hxs] at h
          obtain rfl : x = m := by injection h
          rcases List.mem_singleton.1 ha with rfl
          exact le_refl a
      | some m2 =>
          rw [hxs] at h
          obtain rfl : min x m2 = m := by injection h
          rcases List.mem_cons.1 ha with rfl | hmem
          · exact min_le_left _ _
          · exact le_trans (min_le_right _ _) (ih m2 hxs a hmem)

/-- The maximum of a nonempty list bounds every entry from above. -/
lemma listMax_ge {α : Type} [LinearOrder α] :
    ∀ (l : List α) (m : α), listMax l = some m → ∀ a ∈ l, a ≤ m := by
  intro l
  induction l with
  | nil => intro m h; simp [listMax] at h
  | cons x xs ih =>
      intro m h a ha
      unfold listMax at h
      cases hxs : listMax xs with
      | none =>
          have hxs_nil : xs = [] := by
            cases xs with
            | nil => rfl
            | cons y ys => simp [listMax] at hxs
          subst hxs_nil
          rw [hxs] at h
          obtain rfl : x = m := by injection h
          rcases List.mem_singleton.1 ha with rfl
          exact le_refl a
      | some m2 =>
          rw [hxs] at h
          obtain rfl : max x m2 = m := by injection h
          rcases List.mem_cons.1 ha with rfl | hmem
          · exact le_max_left _ _
          · exact le_trans (ih m2 hxs a hmem) (le_max_right _ _)

/-- C7 --- `get_start_location` and `get_end_location` with an explicit
trajectory id: when the id occurs nowhere in the table both return the
descriptive message (which contains the missing identifier between a fixed
prefix and suffix) as an ordinary value rather than raising or returning a
structured failure; when the id is present both return a (latitude,
longitude) pair. -/
theorem c7_lookup_message_or_pair (rows : List Row) (tid : String) :
    ((∀ r ∈ rows, r.traj ≠ tid) →
       get_start_location rows tid = .inl (missingIdMessage tid) ∧
       get_end_location rows tid = .inl (missingIdMessage tid)) ∧
    ((∃ r ∈ rows, r.traj = tid) →
       (∃ p : ℚ × ℚ, get_start_location rows tid = .inr p) ∧
       (∃ p : ℚ × ℚ, get_end_location rows tid = .inr p)) ∧
    missingIdMessage tid =
      "Trajectory ID: " ++ tid ++ " does not exist in the dataset. Please try again!" := by
  refine ⟨?_, ?_, rfl⟩
  · intro habs
    have hfilt : rows.filter (fun r => decide (r.traj = tid)) = [] := by
      rw [List.filter_eq_nil_iff]
      intro a ha
      simp [habs a ha]
    constructor
    · simp [get_start_location, hfilt]
    · simp [get_end_location, hfilt]
  · rintro ⟨r, hr, htraj⟩
    have hrf : r ∈ rows.filter (fun x => decide (x.traj = tid)) :=
      List.mem_filter.2 ⟨hr, by simp [htraj]⟩
    have hne : rows.filter (fun x => decide (x.traj = tid)) ≠ [] := List.ne_nil_of_mem hrf
    constructor
    · obtain ⟨m, hm, hmem⟩ := listMin_of_ne_nil
        ((rows.filter (fun x => decide (x.traj = tid))).map (fun x => x.t))
        (fun hx => hne (List.map_eq_nil_iff.1 hx))
      obtain ⟨r2, hr2, hr2t⟩ := List.mem_map.1 hmem
      have hrf2 : r2 ∈ (rows.filter fun x => decide (x.traj = tid)).filter
          (fun x => decide (some x.t =
            listMin ((rows.filter fun x => decide (x.traj = tid)).map fun x => x.t))) :=
        List.mem_filter.2 ⟨hr2, by simp [hr2t, hm]⟩
      cases hsl : (rows.filter fun x => decide (x.traj = tid)).filter
          (fun x => decide (some x.t =
            listMin ((rows.filter fun x => decide (x.traj = tid)).map fun x => x.t))) with
      | nil => rw [hsl] at hrf2; exact absurd hrf2 (List.not_mem_nil r2)
      | cons a tl =>
          refine ⟨(a.lat, a.lon), ?_⟩
          simp only [get_start_location]
          rw [hsl]
    · obtain ⟨m, hm, hmem⟩ := listMax_of_ne_nil
        ((rows.filter (fun x => decide (x.traj = tid))).map (fun x => x.t))
        (fun hx => hne (List.map_eq_nil_iff.1 hx))
      obtain ⟨r2, hr2, hr2t⟩ := List.mem_map.1 hmem
      have hrf2 : r2 ∈ (rows.filter fun x => decide (x.traj = tid)).filter
          (fun x => decide (some x.t =
            listMax ((rows.filter fun x => decide (x.traj = tid)).map fun x => x.t))) :=
        List.mem_filter.2 ⟨hr2, by simp [hr2t, hm]⟩
      cases hsl : (rows.filter fun x => decide (x.traj = tid)).filter
          (fun x => decide (some x.t =
            listMax ((rows.filter fun x => decide (x.traj = tid)).map fun x => x.t))) with
      | nil => rw [hsl] at hrf2; exact absurd hrf2 (List.not_mem_nil r2)
      | cons a tl =>
          refine ⟨(a.lat, a.lon), ?_⟩
          simp only [get_end_location]
          rw [hsl]

/-- Witness for C7 at `rowsDayApart` (trajectories "a" and "b"): looking up
the absent id "zebra" yields the message and looking up "a" yields a pair. -/
theorem c7_lookup_message_or_pair_witness :
    (get_start_location rowsDayApart "zebra" = .inl (missingIdMessage "zebra") ∧
     get_end_location rowsDayApart "zebra" = .inl (missingIdMessage "zebra")) ∧
    ((∃ p : ℚ × ℚ, get_start_location rowsDayApart "a" = .inr p) ∧
     (∃ p : ℚ × ℚ, get_end_location rowsDayApart "a" = .inr p)) :=
  ⟨(c7_lookup_message_or_pair rowsDayApart "zebra").1 (by decide),
   (c7_lookup_message_or_pair rowsDayApart "a").2.1 ⟨rowsDayApart.head (by decide), by decide, by decide⟩⟩

/-- The example table of the claim: latitudes {10, 20}, longitudes {30, 40}. -/
def bboxExample : List Row :=
  [{ traj := "a", t := 0, lat := 10, lon := 30 },
   { traj := "a", t := 1, lat := 20, lon := 40 }]

/-- C8 --- on every non-empty table `get_bounding_box` returns the 4-tuple
(minimum latitude, minimum longitude, maximum latitude, maximum longitude):
each component is attained by some record and bounds every record; in
particular on the table with latitudes {10, 20} and longitudes {30, 40} it
returns (10, 30, 20, 40). -/
theorem c8_bounding_box (rows : List Row) (h : rows ≠ []) :
    (∃ a b c d, get_bounding_box rows = (some a, some b, some c, some d) ∧
       a ∈ rows.map (fun r => r.lat) ∧ b ∈ rows.map (fun r => r.lon) ∧
       c ∈ rows.map (fun r => r.lat) ∧ d ∈ rows.map (fun r => r.lon) ∧
       ∀ r ∈ rows, a ≤ r.lat ∧ b ≤ r.lon ∧ r.lat ≤ c ∧ r.lon ≤ d) ∧
    get_bounding_box bboxExample = (some 10, some 30, some 20, some 40) := by
  constructor
  · have hlat : rows.map (fun r => r.lat) ≠ [] := fun hx => h (List.map_eq_nil_iff.1 hx)
    have hlon : rows.map (fun r => r.lon) ≠ [] := fun hx => h (List.map_eq_nil_iff.1 hx)
    obtain ⟨a, ha, hamem⟩ := listMin_of_ne_nil _ hlat
    obtain ⟨b, hb, hbmem⟩ := listMin_of_ne_nil _ hlon
    obtain ⟨cc, hc, hcmem⟩ := listMax_of_ne_nil _ hlat
    obtain ⟨d, hd, hdmem⟩ := listMax_of_ne_nil _ hlon
    refine ⟨a, b, cc, d, ?_, hamem, hbmem, hcmem, hdmem, ?_⟩
    · simp [get_bounding_box, ha, hb, hc, hd]
    · intro r hrr
      exact ⟨listMin_le _ a ha _ (List.mem_map_of_mem _ hrr),
             listMin_le _ b hb _ (List.mem_map_of_mem _ hrr),
             listMax_ge _ cc hc _ (List.mem_map_of_mem _ hrr),
             listMax_ge _ d hd _ (List.mem_map_of_mem _ hrr)⟩
  · decide

/-- Witness for C8: the non-emptiness hypothesis holds for the example table
and the theorem applies there. -/
theorem c8_bounding_box_witness :
    bboxExample ≠ [] ∧
    ((∃ a b c d, get_bounding_box bboxExample = (some a, some b, some c, some d) ∧
        a ∈ bboxExample.map (fun r => r.lat) ∧ b ∈ bboxExample.map (fun r => r.lon) ∧
        c ∈ bboxExample.map (fun r => r.lat) ∧ d ∈ bboxExample.map (fun r => r.lon) ∧
        ∀ r ∈ bboxExample, a ≤ r.lat ∧ b ≤ r.lon ∧ r.lat ≤ c ∧ r.lon ≤ d) ∧
     get_bounding_box bboxExample = (some 10, some 30, some 20, some 40)) :=
  ⟨by decide, c8_bounding_box bboxExample (by decide)⟩

/-!
## Lemmas about the statistics pathway
-/

/-- The one-trajectory stats table used in the concrete statistics claims
(schema: one statistic column `mean`, target column `Species`). -/
def statsSpecies : StatsDF :=
  { statNames := ["mean"], targetName := "Species",
    rows := [{ traj := "t1", feature := "Distance", stats := [("mean", 1)], targetVal := "cat" }] }

/-- C2 --- `pivot_stats_df` is not stateless: the first call leaves the
module-level `ORDERED_COLS` list with `"Species"` appended (the source
aliases the constant and mutates it in place), so a second call on the very
same input selects the target column twice and returns a different column
list than the first invocation. -/
theorem c2_pivot_state_leak :
    (pivot_stats_df ["mean_Distance"] statsSpecies "Species").2 = ["mean_Distance", "Species"] ∧
    (pivot_stats_df ["mean_Distance"] statsSpecies "Species").1.map (fun t => t.cols) =
      .ok ["mean_Distance", "Species"] ∧
    (pivot_stats_df (pivot_stats_df ["mean_Distance"] statsSpecies "Species").2
        statsSpecies "Species").1.map (fun t => t.cols) =
      .ok ["mean_Distance", "Species", "Species"] :=
  ⟨rfl, rfl, rfl⟩

/-- A stats table whose target/label column is named `label`; no column of
the table is named `Species`. -/
def statsLabel : StatsDF :=
  { statNames := ["mean"], targetName := "label",
    rows := [{ traj := "t1", feature := "Distance", stats := [("mean", 1)], targetVal := "cat" }] }

/-- Counterexample to C6 as stated: for the target column name `label` the
hard-coded `small.drop(columns=['Species'])` raises a KeyError, so
`pivot_stats_df` produces no output at all, let alone one with the target
re-attached as the last column. -/
theorem c6_counterexample_species_keyerror :
    (pivot_stats_df ["mean_Distance"] statsLabel "label").1 = .error "KeyError: Species" := rfl

/-- Looking up the key appended at the end of an association list whose other
keys all differ from it. -/
lemma colLookup_append_last (k : String) (c : Cell) :
    ∀ l1 : List (String × Cell), (∀ kv ∈ l1, kv.1 ≠ k) →
      colLookup k (l1 ++ [(k, c)]) = some c := by
  intro l1
  induction l1 with
  | nil => intro _; simp [colLookup]
  | cons kv rest ih =>
      intro hk
      obtain ⟨k1, v1⟩ := kv
      have hne : ¬(k = k1) := fun he => hk (k1, v1) (List.mem_cons_self _ _) he.symm
      show colLookup k ((k1, v1) :: (rest ++ [(k, c)])) = some c
      unfold colLookup
      rw [if_neg hne]
      exact ih fun kv hm => hk kv (List.mem_cons_of_mem _ hm)

/-- Every element of a successful `exceptMap` run comes from a successful
application of the function to some input element. -/
lemma exceptMap_ok_mem {α β : Type} (f : α → Except String β) :
    ∀ (l : List α) (out : List β), exceptMap f l = .ok out →
      ∀ y ∈ out, ∃ x ∈ l, f x = .ok y := by
  intro l
  induction l with
  | nil =>
      intro out h y hy
      obtain rfl : ([] : List β) = out := by injection h
      simp at hy
  | cons x xs ih =>
      intro out h y hy
      unfold exceptMap at h
      cases hfx : f x with
      | error e => rw [hfx] at h; exact Except.noConfusion h
      | ok y1 =>
          rw [hfx] at h
          cases hrest : exceptMap f xs with
          | error e => rw [hrest] at h; exact Except.noConfusion h
          | ok ys =>
              rw [hrest] at h
              obtain rfl : y1 :: ys = out := by injection h
              rcases List.mem_cons.1 hy with rfl | hmem
              · exact ⟨x, List.mem_cons_self _ _, hfx⟩
              · obtain ⟨x2, hx2, hfx2⟩ := ih ys hrest y hmem
                exact ⟨x2, List.mem_cons_of_mem _ hx2, hfx2⟩

/-- Membership in a sorted insertion. -/
lemma mem_insertSorted (x a : String) :
    ∀ l, a ∈ insertSorted x l → a = x ∨ a ∈ l := by
  intro l
  induction l with
  | nil =>
      intro h
      simp [insertSorted] at h
      exact Or.inl h
  | cons y ys ih =>
      intro h
      unfold insertSorted at h
      by_cases hle : x ≤ y
      · rw [if_pos hle] at h
        rcases List.mem_cons.1 h with rfl | h2
        · exact Or.inl rfl
        · exact Or.inr h2
      · rw [if_neg hle] at h
        rcases List.mem_cons.1 h with rfl | h2
        · exact Or.inr (List.mem_cons_self _ _)
        · rcases ih h2 with h3 | h3
          · exact Or.inl h3
          · exact Or.inr (List.mem_cons_of_mem _ h3)

/-- Sorting does not introduce new elements. -/
lemma mem_sortStr (a : String) : ∀ l, a ∈ sortStr l → a ∈ l := by
  intro l
  induction l with
  | nil => intro h; simp [sortStr] at h
  | cons x xs ih =>
      intro h
      have h1 : a ∈ insertSorted x (sortStr xs) := h
      rcases mem_insertSorted x a _ h1 with rfl | h2
      · exact List.mem_cons_self _ _
      · exact List.mem_cons_of_mem _ (ih h2)

/-- Deduplication does not introduce new elements. -/
lemma mem_uniqueFirstAux (a : String) :
    ∀ (l seen : List String), a ∈ uniqueFirstAux seen l → a ∈ l := by
  intro l
  induction l with
  | nil => intro seen h; simp [uniqueFirstAux] at h
  | cons x xs ih =>
      intro seen h
      unfold uniqueFirstAux at h
      by_cases hx : x ∈ seen
      · rw [if_pos hx] at h
        exact List.mem_cons_of_mem _ (ih seen h)
      · rw [if_neg hx] at h
        rcases List.mem_cons.1 h with rfl | h2
        · exact List.mem_cons_self _ _
        · exact List.mem_cons_of_mem _ (ih (x :: seen) h2)

/-- A key that is not among the keys of an association list is not found. -/
lemma qLookup_eq_none (c : String) :
    ∀ l : List (String × ℚ), c ∉ l.map Prod.fst → qLookup c l = none := by
  intro l
  induction l with
  | nil => intro _; rfl
  | cons kv rest ih =>
      intro h
      obtain ⟨k, v⟩ := kv
      have h1 : ¬(c = k) := fun he => h (by rw [List.map_cons]; exact he ▸ List.mem_cons_self _ _)
      have h2 : c ∉ rest.map Prod.fst :=
        fun hm => h (by rw [List.map_cons]; exact List.mem_cons_of_mem _ hm)
      unfold qLookup
      rw [if_neg h1]
      exact ih h2

/-- For a well-formed stats table whose target column is named `Species`,
a successful per-trajectory pivot step returns the trajectory id together
with a column list in which `Species` is bound to the first matching row's
target value. -/
lemma pivotOne_species_spec (df : StatsDF)
    (htn : df.targetName = "Species")
    (hwf : ∀ r ∈ df.rows, r.stats.map Prod.fst = df.statNames)
    (hsp : "Species" ∉ df.statNames)
    (hname : ∀ s ∈ df.statNames, ∀ r ∈ df.rows, stripPipes (s ++ "_" ++ r.feature) ≠ "Species")
    (v : String) (ch : String × List (String × Cell))
    (hok : pivotOne df "Species" v = .ok ch) :
    ch.1 = v ∧
    ∃ r0, (df.rows.filter fun r => r.traj = v).head? = some r0 ∧ r0 ∈ df.rows ∧
      colLookup "Species" ch.2 = some (Cell.str r0.targetVal) := by
  unfold pivotOne at hok
  revert hok
  cases hsm : df.rows.filter (fun r => decide (r.traj = v)) with
  | nil =>
      intro hok
      exact Except.noConfusion hok
  | cons r0 rest =>
      intro hok
      have hr0 : r0 ∈ df.rows :=
        List.mem_of_mem_filter (hsm ▸ List.mem_cons_self r0 rest)
      have hcell : colCell df r0 "Species" = some (Cell.str r0.targetVal) := by
        unfold colCell
        rw [if_neg (by decide : ¬("Species" = "Columns"))]
        rw [qLookup_eq_none _ _ (by rw [hwf r0 hr0]; exact hsp)]
        rw [if_pos htn.symm]
      have hok2 : (match colCell df r0 "Species" with
        | none => (Except.error ("KeyError: " ++ "Species") :
            Except String (String × List (String × Cell)))
        | some targetCell =>
          if "Species" ∈ allCols df then
            .ok (v, pivotCols df (r0 :: rest) ++ [("Species", targetCell)])
          else .error "KeyError: Species") = .ok ch := hok
      rw [hcell] at hok2
      have hmem : "Species" ∈ allCols df := by
        unfold allCols
        exact List.mem_cons_of_mem _
          (List.mem_append_right _ (by rw [htn]; exact List.mem_singleton_self _))
      have hok3 : (if "Species" ∈ allCols df then
          Except.ok (v, pivotCols df (r0 :: rest) ++ [("Species", Cell.str r0.targetVal)])
          else Except.error "KeyError: Species") = .ok ch := hok2
      rw [if_pos hmem] at hok3
      injection hok3 with h2
      subst h2
      refine ⟨rfl, r0, rfl, hr0, ?_⟩
      apply colLookup_append_last
      intro kv hkv
      obtain ⟨s, hs, hkv2⟩ := List.mem_flatMap.1 hkv
      obtain ⟨f, hf, hkv3⟩ := List.mem_map.1 hkv2
      have hs2 : s ∈ df.statNames :=
        List.mem_of_mem_filter (mem_sortStr s _ hs)
      have hf2 : f ∈ (r0 :: rest).map (fun r => r.feature) :=
        mem_uniqueFirstAux f _ [] (mem_sortStr f _ hf)
      obtain ⟨r2, hr2, hr2f⟩ := List.mem_map.1 hf2
      have hr2rows : r2 ∈ df.rows := List.mem_of_mem_filter (hsm ▸ hr2)
      rw [← hkv3]
      show stripPipes (s ++ "_" ++ f) ≠ "Species"
      rw [← hr2f]
      exact hname s hs2 r2 hr2rows

/-- C6 amended --- for a well-formed stats table whose target/label column is
named `Species` (the name the source hard-codes when dropping the target
before pivoting), a successful `pivot_stats_df` call re-attaches the target
as the last output column, holding for each output row the first target
value of that row's trajectory, carried through unmodified. -/
theorem c6_target_passthrough_species (df : StatsDF) (s0 s1 : List String)
    (out : PivotedDF)
    (htn : df.targetName = "Species")
    (hwf : ∀ r ∈ df.rows, r.stats.map Prod.fst = df.statNames)
    (hsp : "Species" ∉ df.statNames)
    (hname : ∀ s ∈ df.statNames, ∀ r ∈ df.rows, stripPipes (s ++ "_" ++ r.feature) ≠ "Species")
    (hok : pivot_stats_df s0 df "Species" = (.ok out, s1)) :
    out.cols.getLast? = some "Species" ∧
    ∀ pr ∈ out.prows, ∃ r0 ∈ df.rows,
      (df.rows.filter fun r => r.traj = pr.1).head? = some r0 ∧
      pr.2.getLast? = some (Cell.str r0.targetVal) := by
  unfold pivot_stats_df at hok
  revert hok
  cases hch : exceptMap (pivotOne df "Species")
      (uniqueFirst (df.rows.map fun r => r.traj)) with
  | error e =>
      intro hok
      have hok2 : ((Except.error e : Except String PivotedDF), s0) = (.ok out, s1) := hok
      exact absurd (congrArg Prod.fst hok2) (by simp)
  | ok chunks =>
      intro hok
      have hok2 : (selectCols (s0 ++ ["Species"]) chunks, s0 ++ ["Species"]) =
          ((Except.ok out : Except String PivotedDF), s1) := hok
      have hsel : selectCols (s0 ++ ["Species"]) chunks = .ok out := congrArg Prod.fst hok2
      unfold selectCols at hsel
      by_cases hall : chunks.all
          (fun ch => (s0 ++ ["Species"]).all fun c => (colLookup c ch.2).isSome)
      · rw [if_pos hall] at hsel
        have h := hsel
        injection h with h2
        subst h2
        constructor
        · exact List.getLast?_concat _
        · intro pr hpr
          obtain ⟨ch, hchmem, hpr2⟩ := List.mem_map.1 hpr
          obtain ⟨v, _, hvok⟩ := exceptMap_ok_mem _ _ chunks hch ch hchmem
          obtain ⟨hch1, r0, hhead, hr0rows, hcl⟩ :=
            pivotOne_species_spec df htn hwf hsp hname v ch hvok
          refine ⟨r0, hr0rows, ?_, ?_⟩
          · rw [← hpr2]
            show (df.rows.filter fun r => r.traj = ch.1).head? = some r0
            rw [hch1]
            exact hhead
          · rw [← hpr2]
            show ((s0 ++ ["Species"]).map
              fun c => (colLookup c ch.2).getD Cell.nan).getLast? = some (Cell.str r0.targetVal)
            rw [List.getLast?_map, List.getLast?_concat]
            show some ((colLookup "Species" ch.2).getD Cell.nan) = some (Cell.str r0.targetVal)
            rw [hcl]
            rfl
      · rw [if_neg hall] at hsel
        exact Except.noConfusion hsel

/-- A stats table with target column `Species` and no statistic columns
(the statistic battery is empty, which keeps the witness computation free of
rational arithmetic). -/
def statsOnlyTarget : StatsDF :=
  { statNames := [], targetName := "Species",
    rows := [{ traj := "t1", feature := "Distance", stats := [], targetVal := "cat" }] }

/-- The pivoted output of `statsOnlyTarget` under an empty canonical column
list. -/
def pivotedOnlyTarget : PivotedDF :=
  { cols := ["Species"], prows := [("t1", [Cell.str "cat"])] }

/-- Witness for the amended C6 at `statsOnlyTarget`: all hypotheses hold and
the target `Species` comes out as the last column carrying the trajectory's
first target value. -/
theorem c6_target_passthrough_species_witness :
    statsOnlyTarget.targetName = "Species" ∧
    (∀ r ∈ statsOnlyTarget.rows, r.stats.map Prod.fst = statsOnlyTarget.statNames) ∧
    "Species" ∉ statsOnlyTarget.statNames ∧
    (∀ s ∈ statsOnlyTarget.statNames, ∀ r ∈ statsOnlyTarget.rows,
      stripPipes (s ++ "_" ++ r.feature) ≠ "Species") ∧
    pivot_stats_df [] statsOnlyTarget "Species" = (.ok pivotedOnlyTarget, ["Species"]) ∧
    (pivotedOnlyTarget.cols.getLast? = some "Species" ∧
     ∀ pr ∈ pivotedOnlyTarget.prows, ∃ r0 ∈ statsOnlyTarget.rows,
       (statsOnlyTarget.rows.filter fun r => r.traj = pr.1).head? = some r0 ∧
       pr.2.getLast? = some (Cell.str r0.targetVal)) :=
  ⟨rfl, by decide, by decide, by decide, by rfl,
   c6_target_passthrough_species statsOnlyTarget [] ["Species"]
     pivotedOnlyTarget rfl (by decide) (by decide) (by decide) (by rfl)⟩
